import Mathlib

/-!
Verification of the keyspace routing model (`py/vtdb/keyspace.py`) and of the
shard reparenting protocol exercised by `test/reparent.py`.

Byte strings are embedded as `List Nat` (each entry one byte value); Python's
lexicographic string comparison on byte strings becomes `bytesLt` / `bytesLe`.
Python exceptions become an explicit error type `PyError`, and fallible
functions return `Except PyError _`.
-/

namespace Vitess

/-- Python's lexicographic `<` on byte strings: the first differing byte
decides, and a proper prefix is smaller. -/
def bytesLt : List Nat → List Nat → Bool
  | _, [] => false
  | [], _ :: _ => true
  | a :: as, b :: bs => if a < b then true else if a = b then bytesLt as bs else false

/-- Python's lexicographic `<=` on byte strings. -/
def bytesLe : List Nat → List Nat → Bool
  | [], _ => true
  | _ :: _, [] => false
  | a :: as, b :: bs => if a < b then true else if a = b then bytesLe as bs else false

/-- Modelled from the spec: `keyrange_constants.MAX_KEY` (the module
`py/vtdb/keyrange_constants.py` is not part of the sources), the explicit
"unbounded" maximum sentinel for a key range's `End`.  It is the empty byte
string, which is why `_shard_contain_kid` must test for it explicitly instead
of relying on the byte comparison. -/
def MAX_KEY : List Nat := []

/-- Modelled from the spec: `keyrange_constants.MIN_KEY`, the minimum of the
key space (empty byte string). -/
def MIN_KEY : List Nat := []

/-- Modelled from the spec: `keyrange_constants.KIT_UNSET`, the unset sentinel
for a keyspace's sharding column type. -/
def KIT_UNSET : String := ""

/-- The non-`OperationalError` exceptions in play: `valueError` is Python's
`ValueError`, `structError` is `struct.error` from the packing step,
`otherError` stands for any other exception a collaborator may raise. -/
inductive PyBase
  | valueError (msg : String)
  | structError
  | otherError (msg : String)
  deriving DecidableEq, Repr

/-- The exceptions `keyspace.py` can raise: either a plain exception, or
`dbexceptions.OperationalError(msg, keyspace_name, cause)` (in `read_keyspace`
an `OperationalError` is re-raised unwrapped, so a cause is never itself an
`OperationalError`). -/
inductive PyError
  | base (e : PyBase)
  | operationalError (msg : String) (keyspace_name : String) (cause : Option PyBase)
  deriving DecidableEq, Repr

/-- Shorthand for raising a `ValueError`. -/
def PyError.valueError (msg : String) : PyError := .base (.valueError msg)

/-- Shorthand for raising a `struct.error`. -/
def PyError.structError : PyError := .base .structError

/-- `pack_keyspace_id = struct.Struct('!Q').pack`: packs an integer into an
8-byte big-endian unsigned representation; `struct.error` outside `[0, 2^64)`. -/
def pack_keyspace_id (keyspace_id : Int) : Except PyError (List Nat) :=
  if keyspace_id < 0 ∨ (2 : Int) ^ 64 ≤ keyspace_id then .error .structError
  else
    let n := keyspace_id.toNat
    .ok [n / 2 ^ 56 % 256, n / 2 ^ 48 % 256, n / 2 ^ 40 % 256, n / 2 ^ 32 % 256,
         n / 2 ^ 24 % 256, n / 2 ^ 16 % 256, n / 2 ^ 8 % 256, n % 256]

/-- The `KeyRange` sub-record of a shard reference: `Start` and `End` byte
strings. -/
structure KeyRange where
  Start : List Nat
  End : List Nat
  deriving DecidableEq, Repr

/-- One entry of a partitioning's `ShardReferences` list: shard `Name` plus its
`KeyRange`. -/
structure ShardReference where
  Name : String
  KeyRange : KeyRange
  deriving DecidableEq, Repr

/-- One partitioning record, the value `partitions[db_type]`.  The
`ShardReferences` key may be missing from the dict, hence the `Option`. -/
structure Partition where
  ShardReferences : Option (List ShardReference)
  deriving DecidableEq, Repr

/-- The raw `SrvKeyspace` dict handed to `Keyspace.__init__`: each top-level
key may be absent (`none`). `Partitions` maps a db type (role) to a
partitioning record, embedded as an association list. -/
structure SrvKeyspaceData where
  Partitions : Option (List (String × Partition))
  ShardingColumnName : Option String
  ShardingColumnType : Option String
  ServedFrom : Option (List (String × String))
  deriving DecidableEq, Repr

/-- The `Keyspace` object. -/
structure Keyspace where
  name : String
  partitions : List (String × Partition)
  sharding_col_name : String
  sharding_col_type : String
  served_from : Option (List (String × String))
  deriving DecidableEq, Repr

/-- `Keyspace.__init__(name, data)`: every missing field is substituted by its
default (`data.get(key, default)`). -/
def Keyspace.init (name : String) (data : SrvKeyspaceData) : Keyspace :=
  { name := name
    partitions := data.Partitions.getD []
    sharding_col_name := data.ShardingColumnName.getD ""
    sharding_col_type := data.ShardingColumnType.getD KIT_UNSET
    served_from := data.ServedFrom }

/-- `Keyspace.get_shards(db_type)`: rejects an empty `db_type`, then
`self.partitions[db_type]['ShardReferences']` with a `KeyError` on either
lookup caught and turned into `[]`. -/
def Keyspace.get_shards (ks : Keyspace) (db_type : String) :
    Except PyError (List ShardReference) :=
  if db_type = "" then .error (.valueError "db_type is not set")
  else
    match (ks.partitions.lookup db_type).bind (fun p => p.ShardReferences) with
    | none => .ok []
    | some refs => .ok refs

/-- `Keyspace.get_shard_count(db_type)`. -/
def Keyspace.get_shard_count (ks : Keyspace) (db_type : String) :
    Except PyError Nat :=
  if db_type = "" then .error (.valueError "db_type is not set")
  else (ks.get_shards db_type).map List.length

/-- `Keyspace.get_shard_names(db_type)`. -/
def Keyspace.get_shard_names (ks : Keyspace) (db_type : String) :
    Except PyError (List String) :=
  if db_type = "" then .error (.valueError "db_type is not set")
  else (ks.get_shards db_type).map (List.map ShardReference.Name)

/-- `_shard_contain_kid(pkid, start, end)`:
`start <= pkid and (end == MAX_KEY or pkid < end)`. -/
def _shard_contain_kid (pkid start stop : List Nat) : Bool :=
  bytesLe start pkid && (stop = MAX_KEY || bytesLt pkid stop)

/-- The scan loop of `keyspace_id_to_shard_name_for_db_type`: first shard whose
range contains `pkid`, in stored order. -/
def find_containing_shard (pkid : List Nat) : List ShardReference → Option ShardReference
  | [] => none
  | sh :: rest =>
    if _shard_contain_kid pkid sh.KeyRange.Start sh.KeyRange.End then some sh
    else find_containing_shard pkid rest

/-- `Keyspace.keyspace_id_to_shard_name_for_db_type(keyspace_id, db_type)`:
reject unset arguments, pack the id big-endian, scan the role's shards in
order, `ValueError` if nothing matches. -/
def Keyspace.keyspace_id_to_shard_name_for_db_type (ks : Keyspace)
    (keyspace_id : Int) (db_type : String) : Except PyError String :=
  if keyspace_id = 0 then .error (.valueError "keyspace_id is not set")
  else if db_type = "" then .error (.valueError "db_type is not set")
  else do
    let pkid ← pack_keyspace_id keyspace_id
    let shards ← ks.get_shards db_type
    match find_containing_shard pkid shards with
    | some sh => .ok sh.Name
    | none => .error (.valueError "cannot find shard for keyspace_id")

/-- `read_keyspace(topo_client, keyspace_name)`: the topology client either
raises (`Except.error`) or returns a record that may be falsy (`none` embeds
Python's `not data`).  A falsy record raises
`OperationalError('invalid empty keyspace', name)`; an `OperationalError`
escaping the `try` block is re-raised unchanged; any other exception is
wrapped as `OperationalError('invalid keyspace', name, e)`. -/
def read_keyspace (topo_client : String → String → Except PyError (Option SrvKeyspaceData))
    (keyspace_name : String) : Except PyError Keyspace :=
  match topo_client "local" keyspace_name with
  | .ok none => .error (.operationalError "invalid empty keyspace" keyspace_name none)
  | .ok (some data) => .ok (Keyspace.init keyspace_name data)
  | .error (.operationalError m k c) => .error (.operationalError m k c)
  | .error (.base e) => .error (.operationalError "invalid keyspace" keyspace_name (some e))

instance {ε α : Type} [DecidableEq ε] [DecidableEq α] : DecidableEq (Except ε α) := by
  intro a b
  cases a with
  | error x =>
    cases b with
    | error y => exact if h : x = y then .isTrue (by rw [h]) else .isFalse (by simp [h])
    | ok y => exact .isFalse (by simp)
  | ok x =>
    cases b with
    | error y => exact .isFalse (by simp)
    | ok y => exact if h : x = y then .isTrue (by rw [h]) else .isFalse (by simp [h])

/-! ### Facts about the lexicographic byte order -/

theorem bytesLe_refl (a : List Nat) : bytesLe a a = true := by
  induction a with
  | nil => rfl
  | cons x xs ih => simp [bytesLe, ih]

theorem bytesLt_irrefl (a : List Nat) : bytesLt a a = false := by
  induction a with
  | nil => rfl
  | cons x xs ih => simp [bytesLt, ih]

theorem bytesLe_of_not_lt {a b : List Nat} (h : bytesLt a b = false) :
    bytesLe b a = true := by
  induction b generalizing a with
  | nil => cases a <;> rfl
  | cons y ys ih =>
    cases a with
    | nil => simp [bytesLt] at h
    | cons x xs =>
      simp only [bytesLt] at h
      simp only [bytesLe]
      by_cases hxy : x < y
      · simp [hxy] at h
      · by_cases hyx : y < x
        · simp [hyx]
        · have hxy' : x = y := by omega
          subst hxy'
          simp [hxy] at h
          simp [ih h]

theorem bytesLe_asymm_of_lt {a b : List Nat} (h : bytesLt a b = true) :
    bytesLe b a = false := by
  induction a generalizing b with
  | nil =>
    cases b with
    | nil => simp [bytesLt] at h
    | cons y ys => rfl
  | cons x xs ih =>
    cases b with
    | nil => simp [bytesLt] at h
    | cons y ys =>
      simp only [bytesLt] at h
      simp only [bytesLe]
      by_cases hxy : x < y
      · have : ¬ y < x := by omega
        have : ¬ y = x := by omega
        simp [*]
      · by_cases hxy' : x = y
        · subst hxy'
          simp [hxy] at h
          simp [hxy, ih h]
        · simp [hxy, hxy'] at h

theorem bytesLe_trans {a b c : List Nat} (hab : bytesLe a b = true)
    (hbc : bytesLe b c = true) : bytesLe a c = true := by
  induction a generalizing b c with
  | nil => rfl
  | cons x xs ih =>
    cases b with
    | nil => simp [bytesLe] at hab
    | cons y ys =>
      cases c with
      | nil => simp [bytesLe] at hbc
      | cons z zs =>
        simp only [bytesLe] at hab hbc ⊢
        by_cases hxy : x < y
        · by_cases hyz : y < z
          · have : x < z := by omega
            simp [this]
          · by_cases hyz' : y = z
            · subst hyz'
              simp [hxy]
            · simp [hyz, hyz'] at hbc
        · by_cases hxy' : x = y
          · subst hxy'
            simp [hxy] at hab
            by_cases hyz : x < z
            · simp [hyz]
            · by_cases hyz' : x = z
              · subst hyz'
                simp [hyz] at hbc
                simp [hyz, ih hab hbc]
              · simp [hyz, hyz'] at hbc
          · simp [hxy, hxy'] at hab

theorem bytesLt_of_lt_of_le {a b c : List Nat} (hab : bytesLt a b = true)
    (hbc : bytesLe b c = true) : bytesLt a c = true := by
  induction b generalizing a c with
  | nil => simp [bytesLt] at hab
  | cons y ys ih =>
    cases a with
    | nil =>
      cases c with
      | nil => simp [bytesLe] at hbc
      | cons z zs => rfl
    | cons x xs =>
      cases c with
      | nil => simp [bytesLe] at hbc
      | cons z zs =>
        simp only [bytesLt] at hab ⊢
        simp only [bytesLe] at hbc
        by_cases hxy : x < y
        · by_cases hyz : y < z
          · have : x < z := by omega
            simp [this]
          · by_cases hyz' : y = z
            · subst hyz'
              simp [hxy]
            · simp [hyz, hyz'] at hbc
        · by_cases hxy' : x = y
          · subst hxy'
            simp [hxy] at hab
            by_cases hyz : x < z
            · simp [hyz]
            · by_cases hyz' : x = z
              · subst hyz'
                simp [hyz] at hbc
                simp [hyz, ih hab hbc]
              · simp [hyz, hyz'] at hbc
          · simp [hxy, hxy'] at hab

/-- The boolean `bytesLt` agrees with the mathematical lexicographic order on
lists of naturals. -/
theorem bytesLt_iff_lex {a b : List Nat} :
    bytesLt a b = true ↔ List.Lex (· < ·) a b := by
  induction a generalizing b with
  | nil =>
    cases b with
    | nil =>
      simp only [bytesLt, Bool.false_eq_true, false_iff]
      intro h
      cases h
    | cons y ys =>
      simp only [bytesLt, true_iff]
      exact List.Lex.nil
  | cons x xs ih =>
    cases b with
    | nil =>
      simp only [bytesLt, Bool.false_eq_true, false_iff]
      intro h
      cases h
    | cons y ys =>
      simp only [bytesLt]
      by_cases hxy : x < y
      · simp only [hxy, if_pos, true_iff]
        exact List.Lex.rel hxy
      · by_cases hxy' : x = y
        · subst hxy'
          simp only [hxy, if_neg, if_pos, not_false_iff, ih]
          constructor
          · intro h
            exact List.Lex.cons h
          · intro h
            cases h with
            | cons h' => exact h'
            | rel h' => exact absurd h' hxy
        · simp only [hxy, hxy', if_neg, not_false_iff, Bool.false_eq_true, false_iff]
          intro h
          cases h with
          | cons h' => exact hxy' rfl
          | rel h' => exact hxy h'

/-- `bytesLe` is "less-than or equal". -/
theorem bytesLe_iff_lt_or_eq {a b : List Nat} :
    bytesLe a b = true ↔ (bytesLt a b = true ∨ a = b) := by
  induction a generalizing b with
  | nil =>
    cases b with
    | nil => simp [bytesLe, bytesLt]
    | cons y ys => simp [bytesLe, bytesLt]
  | cons x xs ih =>
    cases b with
    | nil => simp [bytesLe, bytesLt]
    | cons y ys =>
      simp only [bytesLe, bytesLt]
      by_cases hxy : x < y
      · simp [hxy]
      · by_cases hxy' : x = y
        · subst hxy'
          simp [hxy, ih]
        · simp [hxy, hxy']

/-- The mathematical strict lexicographic order on byte strings. -/
def lexLt (a b : List Nat) : Prop := List.Lex (· < ·) a b

/-- The mathematical non-strict lexicographic order on byte strings. -/
def lexLe (a b : List Nat) : Prop := a = b ∨ lexLt a b

/-- Containment of a packed key in a shard's range, written from the spec:
the half-open interval `[Start, End)` under the lexicographic order, with
`End = MAX_KEY` unbounded. -/
def spec_contains (pkid : List Nat) (sh : ShardReference) : Prop :=
  lexLe sh.KeyRange.Start pkid ∧
    (sh.KeyRange.End = MAX_KEY ∨ lexLt pkid sh.KeyRange.End)

/-- The code's range check agrees with the spec's interval containment. -/
theorem shard_contain_kid_iff_spec {pkid : List Nat} {sh : ShardReference} :
    _shard_contain_kid pkid sh.KeyRange.Start sh.KeyRange.End = true ↔
      spec_contains pkid sh := by
  simp only [_shard_contain_kid, spec_contains, lexLe, lexLt, Bool.and_eq_true,
    Bool.or_eq_true, decide_eq_true_eq]
  constructor
  · rintro ⟨h1, h2⟩
    rcases bytesLe_iff_lt_or_eq.mp h1 with h1' | h1'
    · refine ⟨Or.inr (bytesLt_iff_lex.mp h1'), ?_⟩
      rcases h2 with h2 | h2
      · exact Or.inl h2
      · exact Or.inr (bytesLt_iff_lex.mp h2)
    · refine ⟨Or.inl h1', ?_⟩
      rcases h2 with h2 | h2
      · exact Or.inl h2
      · exact Or.inr (bytesLt_iff_lex.mp h2)
  · rintro ⟨h1, h2⟩
    have h1' : bytesLe sh.KeyRange.Start pkid = true := by
      rcases h1 with h1 | h1
      · exact bytesLe_iff_lt_or_eq.mpr (Or.inr h1)
      · exact bytesLe_iff_lt_or_eq.mpr (Or.inl (bytesLt_iff_lex.mpr h1))
    refine ⟨h1', ?_⟩
    rcases h2 with h2 | h2
    · exact Or.inl h2
    · exact Or.inr (bytesLt_iff_lex.mpr h2)

/-- `bs` is the 8-byte big-endian representation of `n`. -/
def isBigEndian8 (n : Nat) (bs : List Nat) : Prop :=
  bs.length = 8 ∧ (∀ b ∈ bs, b < 256) ∧ bs.foldl (fun acc b => acc * 256 + b) 0 = n

/-- A successful pack really is the fixed-width big-endian representation. -/
theorem pack_keyspace_id_isBigEndian8 {kid : Int} {bs : List Nat}
    (h : pack_keyspace_id kid = .ok bs) : isBigEndian8 kid.toNat bs := by
  unfold pack_keyspace_id at h
  by_cases hr : kid < 0 ∨ (2 : Int) ^ 64 ≤ kid
  · rw [if_pos hr] at h
    exact Except.noConfusion h
  · rw [if_neg hr] at h
    simp only [Except.ok.injEq] at h
    subst h
    push_neg at hr
    obtain ⟨h0, h64⟩ := hr
    have hn : kid.toNat < 2 ^ 64 := by omega
    refine ⟨rfl, ?_, ?_⟩
    · intro b hb
      simp only [List.mem_cons, List.not_mem_nil, or_false] at hb
      rcases hb with h | h | h | h | h | h | h | h <;> subst h <;>
        exact Nat.mod_lt _ (by norm_num)
    · simp only [List.foldl]
      omega

/-! ### Well-formed partitionings -/

/-- A contiguous chain of shard ranges beginning at `s`: each range starts
where the previous one ended, every intermediate `End` is a proper bound
(not the sentinel, and not below the range's start), and the final range ends
at the unbounded `MAX_KEY` sentinel. -/
def wellFormedChain : List Nat → List ShardReference → Prop
  | _, [] => False
  | s, [sh] => sh.KeyRange.Start = s ∧ sh.KeyRange.End = MAX_KEY
  | s, sh :: sh₂ :: rest =>
    sh.KeyRange.Start = s ∧ sh.KeyRange.End ≠ MAX_KEY ∧
      bytesLe s sh.KeyRange.End = true ∧ wellFormedChain sh.KeyRange.End (sh₂ :: rest)

/-- Decision procedure for `wellFormedChain`. -/
def wellFormedChain.dec : (s : List Nat) → (shards : List ShardReference) →
    Decidable (wellFormedChain s shards)
  | _, [] => .isFalse (fun h => h)
  | _, [_] => by unfold wellFormedChain; infer_instance
  | s, sh :: sh₂ :: rest => by
    unfold wellFormedChain
    have := wellFormedChain.dec sh.KeyRange.End (sh₂ :: rest)
    infer_instance

instance {s : List Nat} {shards : List ShardReference} :
    Decidable (wellFormedChain s shards) := wellFormedChain.dec s shards

/-- A well-formed partitioning: the invariant the spec states for one role's
shard references — contiguous, non-overlapping ranges covering the whole key
space from the minimum up to the unbounded maximum sentinel. -/
def wellFormedPartition (shards : List ShardReference) : Prop :=
  wellFormedChain MIN_KEY shards

instance {shards : List ShardReference} : Decidable (wellFormedPartition shards) :=
  wellFormedChain.dec MIN_KEY shards

/-- Every range in a chain starting at `s` starts at or above `s`. -/
theorem chain_starts_ge {s : List Nat} {shards : List ShardReference}
    (h : wellFormedChain s shards) :
    ∀ sh ∈ shards, bytesLe s sh.KeyRange.Start = true := by
  induction shards generalizing s with
  | nil => exact absurd h (fun h => h)
  | cons sh rest ih =>
    intro sh' hsh'
    cases rest with
    | nil =>
      simp only [List.mem_cons, List.not_mem_nil, or_false] at hsh'
      subst hsh'
      rw [h.1]
      exact bytesLe_refl s
    | cons sh₂ rest' =>
      obtain ⟨hstart, _, hle, hchain⟩ := h
      rcases List.mem_cons.mp hsh' with h' | h'
      · subst h'
        rw [hstart]
        exact bytesLe_refl s
      · exact bytesLe_trans hle (ih hchain sh' h')

/-- A key strictly below the chain's starting point is contained in no range
of the chain. -/
theorem chain_no_contain_of_lt {s pkid : List Nat} {shards : List ShardReference}
    (h : wellFormedChain s shards) (hlt : bytesLt pkid s = true) :
    ∀ sh ∈ shards,
      _shard_contain_kid pkid sh.KeyRange.Start sh.KeyRange.End = false := by
  intro sh hsh
  have hge := chain_starts_ge h sh hsh
  have : bytesLt pkid sh.KeyRange.Start = true := bytesLt_of_lt_of_le hlt hge
  have hle : bytesLe sh.KeyRange.Start pkid = false := bytesLe_asymm_of_lt this
  simp [_shard_contain_kid, hle]

/-- In a well-formed chain that starts at or below the key, exactly one range
contains the key. -/
theorem chain_countP_contain_eq_one {s pkid : List Nat} {shards : List ShardReference}
    (h : wellFormedChain s shards) (hs : bytesLe s pkid = true) :
    shards.countP
      (fun sh => _shard_contain_kid pkid sh.KeyRange.Start sh.KeyRange.End) = 1 := by
  induction shards generalizing s with
  | nil => exact absurd h (fun h => h)
  | cons sh rest ih =>
    cases rest with
    | nil =>
      obtain ⟨hstart, hstop⟩ := h
      have hc : _shard_contain_kid pkid sh.KeyRange.Start sh.KeyRange.End = true := by
        simp [_shard_contain_kid, hstart, hs, hstop]
      simp [List.countP_cons, hc]
    | cons sh₂ rest' =>
      obtain ⟨hstart, hstop, hle, hchain⟩ := h
      by_cases hcut : bytesLt pkid sh.KeyRange.End = true
      · have hc : _shard_contain_kid pkid sh.KeyRange.Start sh.KeyRange.End = true := by
          simp [_shard_contain_kid, hstart, hs, hcut]
        have hrest : (sh₂ :: rest').countP
            (fun sh => _shard_contain_kid pkid sh.KeyRange.Start sh.KeyRange.End) = 0 := by
          rw [List.countP_eq_zero]
          intro sh' hsh'
          simp only [Bool.not_eq_true]
          exact chain_no_contain_of_lt hchain hcut sh' hsh'
        simp [List.countP_cons, hc, hrest]
      · have hcut' : bytesLt pkid sh.KeyRange.End = false := by
          simp only [Bool.not_eq_true] at hcut
          exact hcut
        have hc : _shard_contain_kid pkid sh.KeyRange.Start sh.KeyRange.End = false := by
          simp [_shard_contain_kid, hstop, hcut']
        have hs' : bytesLe sh.KeyRange.End pkid = true := bytesLe_of_not_lt hcut'
        have := ih hchain hs'
        simp [List.countP_cons, hc, this]

/-! ### The scan loop -/

/-- The scan returns `none` exactly when no range contains the key. -/
theorem find_containing_shard_eq_none_iff {pkid : List Nat}
    {shards : List ShardReference} :
    find_containing_shard pkid shards = none ↔
      ∀ sh ∈ shards,
        _shard_contain_kid pkid sh.KeyRange.Start sh.KeyRange.End = false := by
  induction shards with
  | nil => simp [find_containing_shard]
  | cons sh rest ih =>
    simp only [find_containing_shard]
    by_cases hc : _shard_contain_kid pkid sh.KeyRange.Start sh.KeyRange.End = true
    · simp [hc]
    · simp only [Bool.not_eq_true] at hc
      simp [hc, ih]

/-- The scan returns `some sh` exactly when `sh` is the first range containing
the key in stored order. -/
theorem find_containing_shard_eq_some_iff {pkid : List Nat}
    {shards : List ShardReference} {sh : ShardReference} :
    find_containing_shard pkid shards = some sh ↔
      ∃ pre post, shards = pre ++ sh :: post ∧
        _shard_contain_kid pkid sh.KeyRange.Start sh.KeyRange.End = true ∧
        ∀ x ∈ pre, _shard_contain_kid pkid x.KeyRange.Start x.KeyRange.End = false := by
  induction shards with
  | nil =>
    constructor
    · intro h
      exact Option.noConfusion h
    · rintro ⟨pre, post, habs, -, -⟩
      exact absurd habs (by simp)
  | cons hd rest ih =>
    simp only [find_containing_shard]
    by_cases hc : _shard_contain_kid pkid hd.KeyRange.Start hd.KeyRange.End = true
    · rw [if_pos hc]
      constructor
      · intro h
        obtain rfl := Option.some.inj h
        exact ⟨[], rest, rfl, hc, by simp⟩
      · rintro ⟨pre, post, hdecomp, hcsh, hpre⟩
        cases pre with
        | nil =>
          simp only [List.nil_append, List.cons.injEq] at hdecomp
          rw [hdecomp.1]
        | cons p ps =>
          simp only [List.cons_append, List.cons.injEq] at hdecomp
          have : _shard_contain_kid pkid hd.KeyRange.Start hd.KeyRange.End = false := by
            rw [hdecomp.1]
            exact hpre p (by simp)
          rw [this] at hc
          exact Bool.noConfusion hc
    · rw [if_neg hc]
      simp only [Bool.not_eq_true] at hc
      rw [ih]
      constructor
      · rintro ⟨pre, post, hdecomp, hcsh, hpre⟩
        refine ⟨hd :: pre, post, by simp [hdecomp], hcsh, ?_⟩
        intro x hx
        rcases List.mem_cons.mp hx with h' | h'
        · rw [h']; exact hc
        · exact hpre x h'
      · rintro ⟨pre, post, hdecomp, hcsh, hpre⟩
        cases pre with
        | nil =>
          simp only [List.nil_append, List.cons.injEq] at hdecomp
          rw [hdecomp.1, hcsh] at hc
          exact Bool.noConfusion hc
        | cons p ps =>
          simp only [List.cons_append, List.cons.injEq] at hdecomp
          refine ⟨ps, post, hdecomp.2, hcsh, ?_⟩
          intro x hx
          exact hpre x (by simp [hx])

/-- When exactly one range contains the key, the scan finds it and it is the
unique container. -/
theorem find_of_countP_one {pkid : List Nat} {shards : List ShardReference}
    (h : shards.countP
      (fun sh => _shard_contain_kid pkid sh.KeyRange.Start sh.KeyRange.End) = 1) :
    ∃ sh, find_containing_shard pkid shards = some sh ∧
      _shard_contain_kid pkid sh.KeyRange.Start sh.KeyRange.End = true ∧
      sh ∈ shards ∧
      ∀ sh' ∈ shards,
        _shard_contain_kid pkid sh'.KeyRange.Start sh'.KeyRange.End = true →
          sh' = sh := by
  induction shards with
  | nil => simp at h
  | cons hd rest ih =>
    rw [List.countP_cons] at h
    by_cases hc : _shard_contain_kid pkid hd.KeyRange.Start hd.KeyRange.End = true
    · have hrest : rest.countP
          (fun sh => _shard_contain_kid pkid sh.KeyRange.Start sh.KeyRange.End) = 0 := by
        rw [if_pos hc] at h
        omega
      refine ⟨hd, ?_, hc, by simp, ?_⟩
      · simp [find_containing_shard, hc]
      · intro sh' hsh' hcsh'
        rcases List.mem_cons.mp hsh' with h' | h'
        · exact h'
        · have := (List.countP_eq_zero.mp hrest) sh' h'
          simp only [hcsh'] at this
          exact absurd this (by simp)
    · have hrest : rest.countP
          (fun sh => _shard_contain_kid pkid sh.KeyRange.Start sh.KeyRange.End) = 1 := by
        rw [if_neg hc] at h
        omega
      obtain ⟨sh, hfind, hcsh, hmem, huniq⟩ := ih hrest
      simp only [Bool.not_eq_true] at hc
      refine ⟨sh, ?_, hcsh, by simp [hmem], ?_⟩
      · simp [find_containing_shard, hc, hfind]
      · intro sh' hsh' hcsh'
        rcases List.mem_cons.mp hsh' with h' | h'
        · subst h'
          rw [hcsh'] at hc
          exact absurd hc (by simp)
        · exact huniq sh' h' hcsh'

/-- Unfolding of the resolver once the two argument checks pass, the pack
succeeds and the shard list is fetched. -/
theorem resolver_eq_scan {ks : Keyspace} {kid : Int} {db_type : String}
    {pkid : List Nat} {shards : List ShardReference}
    (h0 : kid ≠ 0) (hdb : db_type ≠ "")
    (hpack : pack_keyspace_id kid = .ok pkid)
    (hshards : ks.get_shards db_type = .ok shards) :
    ks.keyspace_id_to_shard_name_for_db_type kid db_type =
      match find_containing_shard pkid shards with
      | some sh => .ok sh.Name
      | none => .error (.valueError "cannot find shard for keyspace_id") := by
  unfold Keyspace.keyspace_id_to_shard_name_for_db_type
  rw [if_neg h0, if_neg hdb]
  simp only [bind, Except.bind, hpack, hshards]

/-! ### Concrete keyspaces for witnesses -/

/-- A two-shard range partitioning: shard `-80` covers `[0x00.., 0x80..)` and
shard `80-` covers `[0x80.., MAX)`. -/
def twoShardRefs : List ShardReference :=
  [⟨"-80", ⟨[], [128, 0, 0, 0, 0, 0, 0, 0]⟩⟩,
   ⟨"80-", ⟨[128, 0, 0, 0, 0, 0, 0, 0], []⟩⟩]

/-- A keyspace serving `twoShardRefs` for the `master` role. -/
def twoShardKeyspace : Keyspace :=
  Keyspace.init "test_keyspace"
    ⟨some [("master", ⟨some twoShardRefs⟩)], none, none, none⟩

/-- Negation of `spec_contains` is the same as the boolean check failing. -/
theorem not_spec_contains_iff {pkid : List Nat} {x : ShardReference} :
    ¬ spec_contains pkid x ↔
      _shard_contain_kid pkid x.KeyRange.Start x.KeyRange.End = false := by
  rw [← shard_contain_kid_iff_spec]
  constructor
  · intro h
    cases hb : _shard_contain_kid pkid x.KeyRange.Start x.KeyRange.End
    · rfl
    · exact absurd hb h
  · intro h hcontra
    rw [h] at hcontra
    exact Bool.noConfusion hcontra

/-- C1: for every well-formed partitioning (contiguous, non-overlapping shard
key ranges covering the full key space up to the unbounded maximum sentinel)
and every valid shard key, `keyspace_id_to_shard_name_for_db_type` returns
exactly one shard name: exactly one range contains the packed key, the scan
never fails with the "cannot find shard" `ValueError`, and every containing
range yields the same returned name (so the result does not depend on the
matching strategy). -/
theorem resolve_shard_wellformed_exactly_one
    (ks : Keyspace) (db_type : String) (shards : List ShardReference) (kid : Int)
    (hdb : db_type ≠ "")
    (hshards : ks.get_shards db_type = .ok shards)
    (hwf : wellFormedPartition shards)
    (h0 : kid ≠ 0) (hlo : 0 ≤ kid) (hhi : kid < 2 ^ 64) :
    ∃ pkid sh,
      pack_keyspace_id kid = .ok pkid ∧
      shards.countP
        (fun s => _shard_contain_kid pkid s.KeyRange.Start s.KeyRange.End) = 1 ∧
      sh ∈ shards ∧
      _shard_contain_kid pkid sh.KeyRange.Start sh.KeyRange.End = true ∧
      ks.keyspace_id_to_shard_name_for_db_type kid db_type = .ok sh.Name ∧
      ∀ sh' ∈ shards,
        _shard_contain_kid pkid sh'.KeyRange.Start sh'.KeyRange.End = true →
          ks.keyspace_id_to_shard_name_for_db_type kid db_type = .ok sh'.Name := by
  have h64 : (2 : Int) ^ 64 = 18446744073709551616 := by norm_num
  have hr : ¬(kid < 0 ∨ (2 : Int) ^ 64 ≤ kid) := by
    rw [h64]
    rw [h64] at hhi
    omega
  have hpack : pack_keyspace_id kid = .ok
      [kid.toNat / 2 ^ 56 % 256, kid.toNat / 2 ^ 48 % 256, kid.toNat / 2 ^ 40 % 256,
       kid.toNat / 2 ^ 32 % 256, kid.toNat / 2 ^ 24 % 256, kid.toNat / 2 ^ 16 % 256,
       kid.toNat / 2 ^ 8 % 256, kid.toNat % 256] := by
    unfold pack_keyspace_id
    rw [if_neg hr]
  have hmin : bytesLe MIN_KEY
      [kid.toNat / 2 ^ 56 % 256, kid.toNat / 2 ^ 48 % 256, kid.toNat / 2 ^ 40 % 256,
       kid.toNat / 2 ^ 32 % 256, kid.toNat / 2 ^ 24 % 256, kid.toNat / 2 ^ 16 % 256,
       kid.toNat / 2 ^ 8 % 256, kid.toNat % 256] = true := rfl
  have hcount := chain_countP_contain_eq_one hwf hmin
  obtain ⟨sh, hfind, hcsh, hmem, huniq⟩ := find_of_countP_one hcount
  have hok : ks.keyspace_id_to_shard_name_for_db_type kid db_type = .ok sh.Name := by
    rw [resolver_eq_scan h0 hdb hpack hshards, hfind]
  refine ⟨_, sh, hpack, hcount, hmem, hcsh, hok, ?_⟩
  intro sh' hsh' hcsh'
  rw [huniq sh' hsh' hcsh']
  exact hok

/-- Witness for C1 at a concrete two-shard keyspace and key 7. -/
theorem resolve_shard_wellformed_exactly_one_witness :
    (("master" : String) ≠ "" ∧
      twoShardKeyspace.get_shards "master" = .ok twoShardRefs ∧
      wellFormedPartition twoShardRefs ∧
      (7 : Int) ≠ 0 ∧ (0 : Int) ≤ 7 ∧ (7 : Int) < 2 ^ 64) ∧
    (∃ pkid sh,
      pack_keyspace_id 7 = .ok pkid ∧
      twoShardRefs.countP
        (fun s => _shard_contain_kid pkid s.KeyRange.Start s.KeyRange.End) = 1 ∧
      sh ∈ twoShardRefs ∧
      _shard_contain_kid pkid sh.KeyRange.Start sh.KeyRange.End = true ∧
      twoShardKeyspace.keyspace_id_to_shard_name_for_db_type 7 "master" = .ok sh.Name ∧
      ∀ sh' ∈ twoShardRefs,
        _shard_contain_kid pkid sh'.KeyRange.Start sh'.KeyRange.End = true →
          twoShardKeyspace.keyspace_id_to_shard_name_for_db_type 7 "master" = .ok sh'.Name) :=
  ⟨⟨by decide, by decide, by decide, by decide, by decide, by decide⟩,
   resolve_shard_wellformed_exactly_one twoShardKeyspace "master" twoShardRefs 7
     (by decide) (by decide) (by decide) (by decide) (by decide) (by decide)⟩

/-- C2: for every non-zero packable key and non-empty role, the resolver packs
the key into the fixed-width big-endian byte string and returns the name of the
first shard in stored order whose half-open range `[Start, End)` contains the
packed key under the lexicographic order, `End = MAX_KEY` accepting every key
at or above `Start`; if no range matches it fails with the "cannot find shard"
`ValueError`.  The right-hand sides are written from the spec (`spec_contains`,
`isBigEndian8`), the left-hand side is the code. -/
theorem resolve_shard_refines_spec
    (ks : Keyspace) (kid : Int) (db_type : String) (shards : List ShardReference)
    (h0 : kid ≠ 0) (hlo : 0 ≤ kid) (hhi : kid < 2 ^ 64) (hdb : db_type ≠ "")
    (hshards : ks.get_shards db_type = .ok shards) :
    ∃ pkid, pack_keyspace_id kid = .ok pkid ∧ isBigEndian8 kid.toNat pkid ∧
      (∀ name, ks.keyspace_id_to_shard_name_for_db_type kid db_type = .ok name ↔
        ∃ pre sh post, shards = pre ++ sh :: post ∧ sh.Name = name ∧
          spec_contains pkid sh ∧ ∀ x ∈ pre, ¬ spec_contains pkid x) ∧
      (ks.keyspace_id_to_shard_name_for_db_type kid db_type =
          .error (.valueError "cannot find shard for keyspace_id") ↔
        ∀ sh ∈ shards, ¬ spec_contains pkid sh) := by
  have h64 : (2 : Int) ^ 64 = 18446744073709551616 := by norm_num
  have hr : ¬(kid < 0 ∨ (2 : Int) ^ 64 ≤ kid) := by
    rw [h64]
    rw [h64] at hhi
    omega
  have hpack : pack_keyspace_id kid = .ok
      [kid.toNat / 2 ^ 56 % 256, kid.toNat / 2 ^ 48 % 256, kid.toNat / 2 ^ 40 % 256,
       kid.toNat / 2 ^ 32 % 256, kid.toNat / 2 ^ 24 % 256, kid.toNat / 2 ^ 16 % 256,
       kid.toNat / 2 ^ 8 % 256, kid.toNat % 256] := by
    unfold pack_keyspace_id
    rw [if_neg hr]
  refine ⟨_, hpack, pack_keyspace_id_isBigEndian8 hpack, ?_, ?_⟩
  · intro name
    cases hfind : find_containing_shard
        [kid.toNat / 2 ^ 56 % 256, kid.toNat / 2 ^ 48 % 256, kid.toNat / 2 ^ 40 % 256,
         kid.toNat / 2 ^ 32 % 256, kid.toNat / 2 ^ 24 % 256, kid.toNat / 2 ^ 16 % 256,
         kid.toNat / 2 ^ 8 % 256, kid.toNat % 256] shards with
    | none =>
      have herr : ks.keyspace_id_to_shard_name_for_db_type kid db_type =
          .error (.valueError "cannot find shard for keyspace_id") := by
        rw [resolver_eq_scan h0 hdb hpack hshards, hfind]
      constructor
      · intro h
        rw [herr] at h
        exact Except.noConfusion h
      · rintro ⟨pre, sh', post, hdec, hname, hspec, hpre⟩
        have : find_containing_shard _ shards = some sh' :=
          find_containing_shard_eq_some_iff.mpr
            ⟨pre, post, hdec, shard_contain_kid_iff_spec.mpr hspec,
             fun x hx => not_spec_contains_iff.mp (hpre x hx)⟩
        rw [hfind] at this
        exact Option.noConfusion this
    | some sh =>
      have hok : ks.keyspace_id_to_shard_name_for_db_type kid db_type = .ok sh.Name := by
        rw [resolver_eq_scan h0 hdb hpack hshards, hfind]
      constructor
      · intro h
        rw [hok] at h
        obtain ⟨pre, post, hdec, hcsh, hpre⟩ :=
          find_containing_shard_eq_some_iff.mp hfind
        exact ⟨pre, sh, post, hdec, Except.ok.inj h,
          shard_contain_kid_iff_spec.mp hcsh,
          fun x hx => not_spec_contains_iff.mpr (hpre x hx)⟩
      · rintro ⟨pre, sh', post, hdec, hname, hspec, hpre⟩
        have : find_containing_shard _ shards = some sh' :=
          find_containing_shard_eq_some_iff.mpr
            ⟨pre, post, hdec, shard_contain_kid_iff_spec.mpr hspec,
             fun x hx => not_spec_contains_iff.mp (hpre x hx)⟩
        rw [hfind] at this
        obtain rfl := Option.some.inj this
        rw [hok, hname]
  · cases hfind : find_containing_shard
        [kid.toNat / 2 ^ 56 % 256, kid.toNat / 2 ^ 48 % 256, kid.toNat / 2 ^ 40 % 256,
         kid.toNat / 2 ^ 32 % 256, kid.toNat / 2 ^ 24 % 256, kid.toNat / 2 ^ 16 % 256,
         kid.toNat / 2 ^ 8 % 256, kid.toNat % 256] shards with
    | none =>
      have herr : ks.keyspace_id_to_shard_name_for_db_type kid db_type =
          .error (.valueError "cannot find shard for keyspace_id") := by
        rw [resolver_eq_scan h0 hdb hpack hshards, hfind]
      constructor
      · intro _ sh hsh
        exact not_spec_contains_iff.mpr
          (find_containing_shard_eq_none_iff.mp hfind sh hsh)
      · intro _
        exact herr
    | some sh =>
      have hok : ks.keyspace_id_to_shard_name_for_db_type kid db_type = .ok sh.Name := by
        rw [resolver_eq_scan h0 hdb hpack hshards, hfind]
      constructor
      · intro h
        rw [hok] at h
        exact Except.noConfusion h
      · intro hall
        obtain ⟨pre, post, hdec, hcsh, -⟩ :=
          find_containing_shard_eq_some_iff.mp hfind
        have hmem : sh ∈ shards := by
          rw [hdec]
          simp
        exact absurd (shard_contain_kid_iff_spec.mp hcsh) (hall sh hmem)

/-- Witness for C2 at a concrete two-shard keyspace and key 7. -/
theorem resolve_shard_refines_spec_witness :
    ((7 : Int) ≠ 0 ∧ (0 : Int) ≤ 7 ∧ (7 : Int) < 2 ^ 64 ∧ ("master" : String) ≠ "" ∧
      twoShardKeyspace.get_shards "master" = .ok twoShardRefs) ∧
    (∃ pkid, pack_keyspace_id 7 = .ok pkid ∧ isBigEndian8 (7 : Int).toNat pkid ∧
      (∀ name, twoShardKeyspace.keyspace_id_to_shard_name_for_db_type 7 "master" =
          .ok name ↔
        ∃ pre sh post, twoShardRefs = pre ++ sh :: post ∧ sh.Name = name ∧
          spec_contains pkid sh ∧ ∀ x ∈ pre, ¬ spec_contains pkid x) ∧
      (twoShardKeyspace.keyspace_id_to_shard_name_for_db_type 7 "master" =
          .error (.valueError "cannot find shard for keyspace_id") ↔
        ∀ sh ∈ twoShardRefs, ¬ spec_contains pkid sh)) :=
  ⟨⟨by decide, by decide, by decide, by decide, by decide⟩,
   resolve_shard_refines_spec twoShardKeyspace 7 "master" twoShardRefs
     (by decide) (by decide) (by decide) (by decide) (by decide)⟩

/-- C6: an unset (zero) keyspace id or an unset (empty) db type makes the
resolver fail with a `ValueError` before any lookup of the partitioning is
attempted — the error is the same for every keyspace, whatever its
partitions — and an empty db type fails `get_shards`, `get_shard_count` and
`get_shard_names` the same way. -/
theorem unset_arguments_value_error (ks : Keyspace) (kid : Int) (db_type : String)
    (h0 : kid ≠ 0) :
    ks.keyspace_id_to_shard_name_for_db_type 0 db_type =
      .error (.valueError "keyspace_id is not set") ∧
    ks.keyspace_id_to_shard_name_for_db_type kid "" =
      .error (.valueError "db_type is not set") ∧
    ks.get_shards "" = .error (.valueError "db_type is not set") ∧
    ks.get_shard_count "" = .error (.valueError "db_type is not set") ∧
    ks.get_shard_names "" = .error (.valueError "db_type is not set") := by
  refine ⟨?_, ?_, ?_, ?_, ?_⟩
  · unfold Keyspace.keyspace_id_to_shard_name_for_db_type
    rw [if_pos rfl]
  · unfold Keyspace.keyspace_id_to_shard_name_for_db_type
    rw [if_neg h0, if_pos rfl]
  · unfold Keyspace.get_shards
    rw [if_pos rfl]
  · unfold Keyspace.get_shard_count
    rw [if_pos rfl]
  · unfold Keyspace.get_shard_names
    rw [if_pos rfl]

/-- Witness for C6 at a concrete keyspace and key 5. -/
theorem unset_arguments_value_error_witness :
    (5 : Int) ≠ 0 ∧
    (twoShardKeyspace.keyspace_id_to_shard_name_for_db_type 0 "master" =
      .error (.valueError "keyspace_id is not set") ∧
    twoShardKeyspace.keyspace_id_to_shard_name_for_db_type 5 "" =
      .error (.valueError "db_type is not set") ∧
    twoShardKeyspace.get_shards "" = .error (.valueError "db_type is not set") ∧
    twoShardKeyspace.get_shard_count "" = .error (.valueError "db_type is not set") ∧
    twoShardKeyspace.get_shard_names "" = .error (.valueError "db_type is not set")) :=
  ⟨by decide, unset_arguments_value_error twoShardKeyspace 5 "master" (by decide)⟩

/-- C7: a non-empty role with no partitioning in the keyspace yields the empty
list from `get_shards` (not an error), hence count `0` and no names. -/
theorem absent_role_empty_shards (ks : Keyspace) (db_type : String)
    (hdb : db_type ≠ "") (habs : ks.partitions.lookup db_type = none) :
    ks.get_shards db_type = .ok [] ∧
    ks.get_shard_count db_type = .ok 0 ∧
    ks.get_shard_names db_type = .ok [] := by
  have hge : ks.get_shards db_type = .ok [] := by
    unfold Keyspace.get_shards
    rw [if_neg hdb, habs]
    rfl
  refine ⟨hge, ?_, ?_⟩
  · unfold Keyspace.get_shard_count
    rw [if_neg hdb, hge]
    rfl
  · unfold Keyspace.get_shard_names
    rw [if_neg hdb, hge]
    rfl

/-- Witness for C7: `twoShardKeyspace` has no `replica` partitioning. -/
theorem absent_role_empty_shards_witness :
    (("replica" : String) ≠ "" ∧ twoShardKeyspace.partitions.lookup "replica" = none) ∧
    (twoShardKeyspace.get_shards "replica" = .ok [] ∧
     twoShardKeyspace.get_shard_count "replica" = .ok 0 ∧
     twoShardKeyspace.get_shard_names "replica" = .ok []) :=
  ⟨⟨by decide, by decide⟩,
   absent_role_empty_shards twoShardKeyspace "replica" (by decide) (by decide)⟩

/-- C9: constructing a `Keyspace` succeeds on every input record, substituting
the documented default for every missing field (`Partitions` → empty map,
`ShardingColumnName` → `""`, `ShardingColumnType` → unset sentinel,
`ServedFrom` → `None`); and a partitioning entry present for a role but
lacking the `ShardReferences` key behaves exactly like an absent role:
`get_shards` returns the empty list. -/
theorem keyspace_init_total_defaults
    (name : String) (data : SrvKeyspaceData) (ks ks₂ : Keyspace) (db_type : String)
    (p : Partition) (hdb : db_type ≠ "")
    (hlookup : ks.partitions.lookup db_type = some p)
    (hrefs : p.ShardReferences = none)
    (habs : ks₂.partitions.lookup db_type = none) :
    ((Keyspace.init name data).name = name ∧
     (Keyspace.init name data).partitions = data.Partitions.getD [] ∧
     (Keyspace.init name data).sharding_col_name = data.ShardingColumnName.getD "" ∧
     (Keyspace.init name data).sharding_col_type = data.ShardingColumnType.getD KIT_UNSET ∧
     (Keyspace.init name data).served_from = data.ServedFrom) ∧
    ks.get_shards db_type = .ok [] ∧
    ks.get_shards db_type = ks₂.get_shards db_type := by
  have hge : ks.get_shards db_type = .ok [] := by
    unfold Keyspace.get_shards
    rw [if_neg hdb, hlookup]
    simp [hrefs]
  have hge₂ : ks₂.get_shards db_type = .ok [] := by
    unfold Keyspace.get_shards
    rw [if_neg hdb, habs]
    rfl
  exact ⟨⟨rfl, rfl, rfl, rfl, rfl⟩, hge, by rw [hge, hge₂]⟩

/-- Witness for C9: a record with every field missing, a partitioning whose
`ShardReferences` key is absent, and a keyspace without the role at all. -/
theorem keyspace_init_total_defaults_witness :
    (("rdonly" : String) ≠ "" ∧
      (Keyspace.init "ks" ⟨some [("rdonly", ⟨none⟩)], none, none, none⟩).partitions.lookup
        "rdonly" = some ⟨none⟩ ∧
      (⟨none⟩ : Partition).ShardReferences = none ∧
      twoShardKeyspace.partitions.lookup "rdonly" = none) ∧
    (((Keyspace.init "ks" ⟨none, none, none, none⟩).name = "ks" ∧
      (Keyspace.init "ks" ⟨none, none, none, none⟩).partitions =
        (none : Option (List (String × Partition))).getD [] ∧
      (Keyspace.init "ks" ⟨none, none, none, none⟩).sharding_col_name =
        (none : Option String).getD "" ∧
      (Keyspace.init "ks" ⟨none, none, none, none⟩).sharding_col_type =
        (none : Option String).getD KIT_UNSET ∧
      (Keyspace.init "ks" ⟨none, none, none, none⟩).served_from =
        (⟨none, none, none, none⟩ : SrvKeyspaceData).ServedFrom) ∧
     (Keyspace.init "ks" ⟨some [("rdonly", ⟨none⟩)], none, none, none⟩).get_shards
        "rdonly" = .ok [] ∧
     (Keyspace.init "ks" ⟨some [("rdonly", ⟨none⟩)], none, none, none⟩).get_shards
        "rdonly" = twoShardKeyspace.get_shards "rdonly") :=
  ⟨⟨by decide, by decide, by decide, by decide⟩,
   keyspace_init_total_defaults "ks" ⟨none, none, none, none⟩
     (Keyspace.init "ks" ⟨some [("rdonly", ⟨none⟩)], none, none, none⟩)
     twoShardKeyspace "rdonly" ⟨none⟩ (by decide) (by decide) (by decide) (by decide)⟩

/-- C10: the resolver can only resolve keys in `[1, 2 ^ 64)`: a negative or
too-large key makes the pack step fail with `struct.error` — a distinct error
from any `ValueError` (so neither the invalid-argument nor the
shard-not-found failure) — before any range comparison, for every keyspace;
and key `0` was already rejected earlier, so a successful resolution implies
the key lies in `[1, 2 ^ 64)`. -/
theorem resolve_shard_pack_domain (ks : Keyspace) (kid : Int) (db_type : String)
    (h0 : kid ≠ 0) (hdb : db_type ≠ "")
    (hout : kid < 0 ∨ (2 : Int) ^ 64 ≤ kid) :
    ks.keyspace_id_to_shard_name_for_db_type kid db_type = .error .structError ∧
    (∀ msg, (PyError.structError ≠ PyError.valueError msg)) ∧
    (∀ (kid' : Int) (name : String),
      ks.keyspace_id_to_shard_name_for_db_type kid' db_type = .ok name →
        0 < kid' ∧ kid' < 2 ^ 64) := by
  refine ⟨?_, ?_, ?_⟩
  · have hpack : pack_keyspace_id kid = .error .structError := by
      unfold pack_keyspace_id
      rw [if_pos hout]
    unfold Keyspace.keyspace_id_to_shard_name_for_db_type
    rw [if_neg h0, if_neg hdb]
    simp only [bind, Except.bind, hpack]
  · intro msg
    simp [PyError.structError, PyError.valueError]
  · intro kid' name h
    by_cases h0' : kid' = 0
    · subst h0'
      unfold Keyspace.keyspace_id_to_shard_name_for_db_type at h
      rw [if_pos rfl] at h
      exact Except.noConfusion h
    · by_cases hout' : kid' < 0 ∨ (2 : Int) ^ 64 ≤ kid'
      · have hpack : pack_keyspace_id kid' = .error .structError := by
          unfold pack_keyspace_id
          rw [if_pos hout']
        unfold Keyspace.keyspace_id_to_shard_name_for_db_type at h
        rw [if_neg h0', if_neg hdb] at h
        simp only [bind, Except.bind, hpack] at h
        exact Except.noConfusion h
      · push_neg at hout'
        obtain ⟨hge, hlt⟩ := hout'
        refine ⟨?_, hlt⟩
        omega

/-- Witness for C10 at key `-1`. -/
theorem resolve_shard_pack_domain_witness :
    ((-1 : Int) ≠ 0 ∧ ("master" : String) ≠ "" ∧
      ((-1 : Int) < 0 ∨ (2 : Int) ^ 64 ≤ -1)) ∧
    (twoShardKeyspace.keyspace_id_to_shard_name_for_db_type (-1) "master" =
        .error .structError ∧
     (∀ msg, (PyError.structError ≠ PyError.valueError msg)) ∧
     (∀ (kid' : Int) (name : String),
        twoShardKeyspace.keyspace_id_to_shard_name_for_db_type kid' "master" =
          .ok name → 0 < kid' ∧ kid' < 2 ^ 64)) :=
  ⟨⟨by decide, by decide, by decide⟩,
   resolve_shard_pack_domain twoShardKeyspace (-1) "master"
     (by decide) (by decide) (by decide)⟩

/-- A topology client covering the behaviors `read_keyspace` must handle:
an empty record, an `OperationalError`, a plain exception and a good record. -/
def tcScenarios : String → String → Except PyError (Option SrvKeyspaceData) :=
  fun _ n =>
    if n = "empty_ks" then .ok none
    else if n = "op_err_ks" then .error (.operationalError "zk read failed" "op_err_ks" none)
    else if n = "parse_err_ks" then .error (.base (.otherError "bad json"))
    else .ok (some ⟨none, none, none, none⟩)

/-- C8: loading a keyspace whose topology record is absent/empty fails with
the empty-keyspace `OperationalError`; a non-`OperationalError` failure from
the client is wrapped as an `OperationalError` carrying the keyspace name and
the underlying cause; an `OperationalError` raised by the client itself is
propagated unchanged (never double-wrapped); and a good record loads. -/
theorem read_keyspace_error_paths
    (tc : String → String → Except PyError (Option SrvKeyspaceData))
    (keyspace_name : String) :
    (tc "local" keyspace_name = .ok none →
      read_keyspace tc keyspace_name =
        .error (.operationalError "invalid empty keyspace" keyspace_name none)) ∧
    (∀ m k c, tc "local" keyspace_name = .error (.operationalError m k c) →
      read_keyspace tc keyspace_name = .error (.operationalError m k c)) ∧
    (∀ e : PyBase, tc "local" keyspace_name = .error (.base e) →
      read_keyspace tc keyspace_name =
        .error (.operationalError "invalid keyspace" keyspace_name (some e))) ∧
    (∀ data, tc "local" keyspace_name = .ok (some data) →
      read_keyspace tc keyspace_name = .ok (Keyspace.init keyspace_name data)) := by
  refine ⟨?_, ?_, ?_, ?_⟩
  · intro h
    unfold read_keyspace
    rw [h]
  · intro m k c h
    unfold read_keyspace
    rw [h]
  · intro e h
    unfold read_keyspace
    rw [h]
  · intro data h
    unfold read_keyspace
    rw [h]

/-- Witness for C8: all four paths of `read_keyspace` at `tcScenarios`. -/
theorem read_keyspace_error_paths_witness :
    (tcScenarios "local" "empty_ks" = .ok none ∧
      read_keyspace tcScenarios "empty_ks" =
        .error (.operationalError "invalid empty keyspace" "empty_ks" none)) ∧
    (tcScenarios "local" "op_err_ks" =
        .error (.operationalError "zk read failed" "op_err_ks" none) ∧
      read_keyspace tcScenarios "op_err_ks" =
        .error (.operationalError "zk read failed" "op_err_ks" none)) ∧
    (tcScenarios "local" "parse_err_ks" = .error (.base (.otherError "bad json")) ∧
      read_keyspace tcScenarios "parse_err_ks" =
        .error (.operationalError "invalid keyspace" "parse_err_ks"
          (some (.otherError "bad json")))) ∧
    (tcScenarios "local" "good_ks" = .ok (some ⟨none, none, none, none⟩) ∧
      read_keyspace tcScenarios "good_ks" =
        .ok (Keyspace.init "good_ks" ⟨none, none, none, none⟩)) :=
  ⟨⟨by decide, (read_keyspace_error_paths tcScenarios "empty_ks").1 (by decide)⟩,
   ⟨by decide, (read_keyspace_error_paths tcScenarios "op_err_ks").2.1
      "zk read failed" "op_err_ks" none (by decide)⟩,
   ⟨by decide, (read_keyspace_error_paths tcScenarios "parse_err_ks").2.2.1
      (.otherError "bad json") (by decide)⟩,
   ⟨by decide, (read_keyspace_error_paths tcScenarios "good_ks").2.2.2
      ⟨none, none, none, none⟩ (by decide)⟩⟩

/-! ### The reparent coordinator

The coordinator code is exercised by `test/reparent.py` but is not itself part
of the sources, so the state machine below is modelled from the spec
(§4.2 ReparentCoordinator), with the test pinning the observable behaviors:
a planned reparent aborts with `DemoteMaster failed` when the current master
is unreachable and leaves the shard record unchanged; an emergency reparent
never contacts the old master (which must already be scrapped, i.e. removed
from the shard's serving tablets); replica rewire failures are collected
rather than fatal; after a graceful reparent the demoted old master replicates
from the new master. -/

/-- Tablet roles. -/
inductive TabletRole
  | master
  | replica
  | spare
  deriving DecidableEq, Repr

/-- One tablet of a shard: uid, role, the uid its replication points at, and
whether its node agent is reachable over RPC. -/
structure TabletRec where
  uid : Nat
  role : TabletRole
  replTarget : Option Nat
  reachable : Bool
  deriving DecidableEq, Repr

/-- The committed shard record: the master reference plus the shard's serving
tablets (a scrapped tablet is removed from serving, as `ScrapTablet` does in
the test). -/
structure Shard where
  masterAlias : Option Nat
  tablets : List TabletRec
  deriving DecidableEq, Repr

/-- Look a tablet up by uid. -/
def Shard.findTablet (s : Shard) (uid : Nat) : Option TabletRec :=
  s.tablets.find? (fun t => t.uid = uid)

/-- Modelled from the spec: the protocol-level precondition failures that
abort a reparent with no state change. -/
inductive ReparentAbort
  | noOpReparent
  | noMasterFound
  | demoteMasterFailed
  | promoteFailed
  deriving DecidableEq, Repr

/-- Modelled from the spec: rewire one replica to the new master; attempted
independently, an unreachable tablet is recorded as failed and left untouched. -/
def rewireTablet (new : Nat) (t : TabletRec) : TabletRec × Option Nat :=
  if t.reachable then ({ t with replTarget := some new }, none)
  else (t, some t.uid)

/-- Modelled from the spec: apply one step of a planned reparent commit to one
tablet — the target is promoted to master, the old master is demoted to
replica and rewired to the new master, every other tablet is rewired. -/
def plannedStep (old new : Nat) (t : TabletRec) : TabletRec × Option Nat :=
  if t.uid = new then ({ t with role := .master, replTarget := none }, none)
  else if t.uid = old then ({ t with role := .replica, replTarget := some new }, none)
  else rewireTablet new t

/-- Modelled from the spec: apply one step of an emergency reparent commit to
one tablet — the old master is no longer in the serving set, so only the
promotion of the target and the rewiring of survivors happen. -/
def emergencyStep (new : Nat) (t : TabletRec) : TabletRec × Option Nat :=
  if t.uid = new then ({ t with role := .master, replTarget := none }, none)
  else rewireTablet new t

/-- Fan the per-tablet step out over the shard, collecting the failed uids. -/
def commitAll (step : TabletRec → TabletRec × Option Nat) :
    List TabletRec → List TabletRec × List Nat
  | [] => ([], [])
  | t :: rest =>
    let r := step t
    let rs := commitAll step rest
    (r.1 :: rs.1, match r.2 with | none => rs.2 | some u => u :: rs.2)

/-- Modelled from the spec: a planned reparent.  Read the shard record; fail
`NoOpReparent` when the target is already master; contact the old master to
demote it, aborting with `DemoteMasterFailed` (no state change) when it is
unreachable; promote the target, aborting when it is unreachable; rewire every
other tablet, collecting per-replica failures; commit the new master to the
shard record. -/
def plannedReparent (s : Shard) (new : Nat) : Shard × Sum ReparentAbort (List Nat) :=
  match s.masterAlias with
  | none => (s, .inl .noMasterFound)
  | some old =>
    if new = old then (s, .inl .noOpReparent)
    else
      match s.findTablet old with
      | none => (s, .inl .demoteMasterFailed)
      | some oldT =>
        if oldT.reachable = false then (s, .inl .demoteMasterFailed)
        else
          match s.findTablet new with
          | none => (s, .inl .promoteFailed)
          | some newT =>
            if newT.reachable = false then (s, .inl .promoteFailed)
            else
              let r := commitAll (plannedStep old new) s.tablets
              ({ masterAlias := some new, tablets := r.1 }, .inr r.2)

/-- Modelled from the spec: an emergency reparent.  The old master is never
contacted (it must already have been scrapped out of the serving set); the
target is promoted, survivors are rewired with failures collected, and the
new master is committed. -/
def emergencyReparent (s : Shard) (new : Nat) : Shard × Sum ReparentAbort (List Nat) :=
  match s.findTablet new with
  | none => (s, .inl .promoteFailed)
  | some newT =>
    if newT.reachable = false then (s, .inl .promoteFailed)
    else
      let r := commitAll (emergencyStep new) s.tablets
      ({ masterAlias := some new, tablets := r.1 }, .inr r.2)

/-- Modelled from `test/reparent.py` (`test_reparent_with_down_slave`): the
operator-facing command exits zero only when the reparent committed with no
per-replica failure; a committed reparent with failed rewires exits non-zero
(the test runs `PlannedReparentShard` with `expect_fail=True` and checks the
failed tablet is named in the error). -/
def reparentReportsSuccess : Sum ReparentAbort (List Nat) → Bool
  | .inr [] => true
  | _ => false

/-- Mark one tablet's node agent reachable again (connectivity restored). -/
def Shard.restoreTablet (s : Shard) (uid : Nat) : Shard :=
  { s with
    tablets :=
      s.tablets.map (fun t => if t.uid = uid then { t with reachable := true } else t) }

/-! ### Facts about the reparent model -/

theorem commitAll_fst (step : TabletRec → TabletRec × Option Nat)
    (ts : List TabletRec) : (commitAll step ts).1 = ts.map (fun t => (step t).1) := by
  induction ts with
  | nil => rfl
  | cons t rest ih => simp [commitAll, ih]

theorem commitAll_snd (step : TabletRec → TabletRec × Option Nat)
    (ts : List TabletRec) :
    (commitAll step ts).2 = ts.filterMap (fun t => (step t).2) := by
  induction ts with
  | nil => rfl
  | cons t rest ih =>
    simp only [commitAll, List.filterMap_cons]
    cases h : (step t).2 with
    | none => simp [h, ih]
    | some u => simp [h, ih]

theorem rewireTablet_uid (new : Nat) (t : TabletRec) :
    (rewireTablet new t).1.uid = t.uid := by
  unfold rewireTablet
  by_cases h : t.reachable <;> simp [h]

theorem plannedStep_uid (old new : Nat) (t : TabletRec) :
    (plannedStep old new t).1.uid = t.uid := by
  unfold plannedStep
  by_cases h1 : t.uid = new
  · rw [if_pos h1]
  · rw [if_neg h1]
    by_cases h2 : t.uid = old
    · rw [if_pos h2]
    · rw [if_neg h2]
      exact rewireTablet_uid new t

theorem emergencyStep_uid (new : Nat) (t : TabletRec) :
    (emergencyStep new t).1.uid = t.uid := by
  unfold emergencyStep
  by_cases h1 : t.uid = new
  · rw [if_pos h1]
  · rw [if_neg h1]
    exact rewireTablet_uid new t

theorem findTablet_uid {s : Shard} {u : Nat} {t : TabletRec}
    (h : s.findTablet u = some t) : t.uid = u := by
  unfold Shard.findTablet at h
  have hp := List.find?_some h
  exact of_decide_eq_true hp

theorem findTablet_mem {s : Shard} {u : Nat} {t : TabletRec}
    (h : s.findTablet u = some t) : t ∈ s.tablets := by
  unfold Shard.findTablet at h
  exact List.mem_of_find?_eq_some h

/-- `find?` by uid commutes with mapping a uid-preserving function. -/
theorem findTablet_map_uid_preserving {f : TabletRec → TabletRec}
    (hf : ∀ t, (f t).uid = t.uid) (ts : List TabletRec) (v : Nat) :
    (ts.map f).find? (fun t => t.uid = v) =
      ((ts.find? (fun t => t.uid = v)).map f) := by
  have hp : ((fun t : TabletRec => decide (t.uid = v)) ∘ f) =
      (fun t : TabletRec => decide (t.uid = v)) := by
    funext t
    simp [Function.comp, hf]
  rw [List.find?_map, hp]

theorem restoreTablet_masterAlias (s : Shard) (u : Nat) :
    (s.restoreTablet u).masterAlias = s.masterAlias := rfl

theorem restoreTablet_findTablet (s : Shard) (u v : Nat) :
    (s.restoreTablet u).findTablet v =
      (s.findTablet v).map
        (fun t => if t.uid = u then { t with reachable := true } else t) := by
  unfold Shard.restoreTablet Shard.findTablet
  exact findTablet_map_uid_preserving
    (by intro t; by_cases h : t.uid = u <;> simp [h]) s.tablets v

/-- With no duplicate uids, exactly one tablet carries a uid present in the
shard. -/
theorem countP_uid_eq_one {ts : List TabletRec} {u : Nat}
    (hnd : (ts.map (fun t => t.uid)).Nodup)
    (hmem : ∃ t ∈ ts, t.uid = u) :
    ts.countP (fun t => t.uid = u) = 1 := by
  induction ts with
  | nil => simp at hmem
  | cons t rest ih =>
    simp only [List.map_cons, List.nodup_cons] at hnd
    rw [List.countP_cons]
    by_cases h : t.uid = u
    · have hzero : rest.countP (fun t => t.uid = u) = 0 := by
        rw [List.countP_eq_zero]
        intro t' ht'
        simp only [decide_eq_true_eq]
        intro he
        refine hnd.1 ?_
        have he' : t.uid = t'.uid := by rw [h, he]
        rw [he']
        exact List.mem_map_of_mem _ ht'
      simp [h, hzero]
    · have hmem' : ∃ t' ∈ rest, t'.uid = u := by
        rcases hmem with ⟨t', ht', he⟩
        rcases List.mem_cons.mp ht' with rfl | hm
        · exact absurd he h
        · exact ⟨t', hm, he⟩
      simp [h, ih hnd.2 hmem']

/-- C3: a planned reparent whose current master is unreachable aborts with
`DemoteMasterFailed` and leaves the committed shard record (master reference
and tablets) unchanged; repeating the same operation after the old master's
connectivity is restored commits the new master. -/
theorem planned_reparent_down_master_aborts
    (s : Shard) (old new : Nat) (oldT newT : TabletRec)
    (hmaster : s.masterAlias = some old)
    (hne : new ≠ old)
    (hold : s.findTablet old = some oldT)
    (hunreach : oldT.reachable = false)
    (hnew : s.findTablet new = some newT)
    (hreach : newT.reachable = true) :
    plannedReparent s new = (s, .inl .demoteMasterFailed) ∧
    ∃ s' failed, plannedReparent (s.restoreTablet old) new = (s', .inr failed) ∧
      s'.masterAlias = some new := by
  constructor
  · unfold plannedReparent
    rw [hmaster]
    simp only [hne, if_neg, hold, hunreach]
    rfl
  · have hmaster' : (s.restoreTablet old).masterAlias = some old := by
      rw [restoreTablet_masterAlias, hmaster]
    have hold' : (s.restoreTablet old).findTablet old =
        some { oldT with reachable := true } := by
      rw [restoreTablet_findTablet, hold]
      simp [findTablet_uid hold]
    have hnew' : (s.restoreTablet old).findTablet new = some newT := by
      rw [restoreTablet_findTablet, hnew]
      have : newT.uid = new := findTablet_uid hnew
      have hne' : newT.uid ≠ old := by rw [this]; exact hne
      simp [hne']
    refine ⟨{ masterAlias := some new,
              tablets := (commitAll (plannedStep old new) (s.restoreTablet old).tablets).1 },
            (commitAll (plannedStep old new) (s.restoreTablet old).tablets).2, ?_, rfl⟩
    unfold plannedReparent
    rw [hmaster']
    simp only [hne, if_neg, hold', hnew', hreach]
    rfl

/-- The shard of `test_reparent_down_master` before the reparent: master
62344 down, three healthy replicas. -/
def downMasterShard : Shard :=
  ⟨some 62344,
   [⟨62344, .master, none, false⟩,
    ⟨62044, .replica, some 62344, true⟩,
    ⟨41983, .replica, some 62344, true⟩,
    ⟨31981, .replica, some 62344, true⟩]⟩

/-- Witness for C3 at the `test_reparent_down_master` topology. -/
theorem planned_reparent_down_master_aborts_witness :
    (downMasterShard.masterAlias = some 62344 ∧
      (62044 : Nat) ≠ 62344 ∧
      downMasterShard.findTablet 62344 = some ⟨62344, .master, none, false⟩ ∧
      (⟨62344, .master, none, false⟩ : TabletRec).reachable = false ∧
      downMasterShard.findTablet 62044 = some ⟨62044, .replica, some 62344, true⟩ ∧
      (⟨62044, .replica, some 62344, true⟩ : TabletRec).reachable = true) ∧
    (plannedReparent downMasterShard 62044 =
        (downMasterShard, .inl .demoteMasterFailed) ∧
      ∃ s' failed,
        plannedReparent (downMasterShard.restoreTablet 62344) 62044 =
          (s', .inr failed) ∧ s'.masterAlias = some 62044) :=
  ⟨⟨by decide, by decide, by decide, by decide, by decide, by decide⟩,
   planned_reparent_down_master_aborts downMasterShard 62344 62044
     ⟨62344, .master, none, false⟩ ⟨62044, .replica, some 62344, true⟩
     (by decide) (by decide) (by decide) (by decide) (by decide) (by decide)⟩

/-- Invariant of the commit fan-out: when the per-tablet step promotes exactly
the target to master, records no failure, and rewires every non-target, the
committed tablet list has exactly one master and every other tablet replicates
from the target. -/
theorem commit_invariant (ts : List TabletRec)
    (step : TabletRec → TabletRec × Option Nat) (new : Nat)
    (hstepuid : ∀ t, ((step t).1).uid = t.uid)
    (hnodup : (ts.map (fun t => t.uid)).Nodup)
    (hmem : ∃ t ∈ ts, t.uid = new)
    (hpred : ∀ t ∈ ts, (((step t).1).role = TabletRole.master ↔ t.uid = new))
    (hrewire : ∀ t ∈ ts, t.uid ≠ new → (step t).2 = none →
      ((step t).1).replTarget = some new)
    (hnofail : (commitAll step ts).2 = []) :
    (commitAll step ts).1.countP (fun t => t.role = TabletRole.master) = 1 ∧
    ∀ t' ∈ (commitAll step ts).1, t'.uid ≠ new → t'.replTarget = some new := by
  have hallnone : ∀ t ∈ ts, (step t).2 = none := by
    rw [commitAll_snd, List.filterMap_eq_nil_iff] at hnofail
    exact hnofail
  constructor
  · rw [commitAll_fst, List.countP_map]
    have hcnt : ts.countP
        ((fun t : TabletRec => decide (t.role = TabletRole.master)) ∘
          (fun t => (step t).1)) = ts.countP (fun t => t.uid = new) := by
      refine List.countP_congr ?_
      intro t ht
      simp only [Function.comp, decide_eq_true_eq]
      exact hpred t ht
    rw [hcnt]
    exact countP_uid_eq_one hnodup hmem
  · intro t' ht' hne
    rw [commitAll_fst] at ht'
    obtain ⟨t, ht, rfl⟩ := List.mem_map.mp ht'
    have huid : t.uid ≠ new := by
      rw [← hstepuid t]
      exact hne
    exact hrewire t ht huid (hallnone t ht)

/-- C4: after a successful planned or emergency reparent (demote/promote RPCs
succeeded and the operation committed with no per-replica failure) of a shard
whose uids are distinct and whose only master role (if any) is the recorded
master, exactly one tablet holds the master role and every other tablet - in
particular every non-spare one - replicates from the target; the committed
shard record names the new master.  The emergency branch never consults the
old master, which is absent from the serving set (powered off and scrapped). -/
theorem reparent_exactly_one_master (s s' : Shard) (new : Nat)
    (hnodup : (s.tablets.map (fun t => t.uid)).Nodup)
    (hrun :
      (∃ old oldT newT, s.masterAlias = some old ∧ new ≠ old ∧
        s.findTablet old = some oldT ∧ oldT.reachable = true ∧
        s.findTablet new = some newT ∧ newT.reachable = true ∧
        (∀ t ∈ s.tablets, t.role = TabletRole.master → t.uid = old) ∧
        plannedReparent s new = (s', .inr [])) ∨
      (∃ newT, s.findTablet new = some newT ∧ newT.reachable = true ∧
        (∀ t ∈ s.tablets, t.role ≠ TabletRole.master) ∧
        emergencyReparent s new = (s', .inr []))) :
    s'.masterAlias = some new ∧
    s'.tablets.countP (fun t => t.role = TabletRole.master) = 1 ∧
    ∀ t ∈ s'.tablets, t.role ≠ TabletRole.spare → t.uid ≠ new →
      t.replTarget = some new := by
  rcases hrun with ⟨old, oldT, newT, hmaster, hne, hfold, hor, hfnew, hnr, hmasters, heq⟩ |
    ⟨newT, hfnew, hnr, hnomaster, heq⟩
  · have hcompute : plannedReparent s new =
        ({ masterAlias := some new,
           tablets := (commitAll (plannedStep old new) s.tablets).1 },
         .inr (commitAll (plannedStep old new) s.tablets).2) := by
      unfold plannedReparent
      rw [hmaster]
      simp only [hne, if_neg, hfold, hor, hfnew, hnr]
      rfl
    rw [hcompute] at heq
    have hfst : ({ masterAlias := some new,
                   tablets := (commitAll (plannedStep old new) s.tablets).1 } : Shard)
        = s' := congrArg Prod.fst heq
    have hsnd := congrArg Prod.snd heq
    simp only at hsnd
    have hnofail : (commitAll (plannedStep old new) s.tablets).2 = [] :=
      Sum.inr.inj hsnd
    have hmem : ∃ t ∈ s.tablets, t.uid = new :=
      ⟨newT, findTablet_mem hfnew, findTablet_uid hfnew⟩
    have hpred : ∀ t ∈ s.tablets,
        (((plannedStep old new t).1).role = TabletRole.master ↔ t.uid = new) := by
      intro t ht
      unfold plannedStep
      by_cases hn : t.uid = new
      · rw [if_pos hn]
        simp [hn]
      · rw [if_neg hn]
        by_cases ho : t.uid = old
        · rw [if_pos ho]
          simp [hn]
        · rw [if_neg ho]
          unfold rewireTablet
          by_cases hre : t.reachable
          · rw [if_pos hre]
            simp only [hn, iff_false]
            intro hm
            exact ho (hmasters t ht hm)
          · rw [if_neg hre]
            simp only [hn, iff_false]
            intro hm
            exact ho (hmasters t ht hm)
    have hrewire : ∀ t ∈ s.tablets, t.uid ≠ new →
        (plannedStep old new t).2 = none →
        ((plannedStep old new t).1).replTarget = some new := by
      intro t ht hn hnone
      unfold plannedStep at hnone ⊢
      rw [if_neg hn] at hnone ⊢
      by_cases ho : t.uid = old
      · rw [if_pos ho]
      · rw [if_neg ho] at hnone ⊢
        unfold rewireTablet at hnone ⊢
        by_cases hre : t.reachable
        · rw [if_pos hre]
        · rw [if_neg hre] at hnone
          exact absurd hnone (by simp)
    obtain ⟨hcount, htargets⟩ := commit_invariant s.tablets
      (plannedStep old new) new (plannedStep_uid old new) hnodup hmem
      hpred hrewire hnofail
    refine ⟨?_, ?_, ?_⟩
    · rw [← hfst]
    · rw [← hfst]
      exact hcount
    · intro t ht hsp hne2
      rw [← hfst] at ht
      exact htargets t ht hne2
  · have hcompute : emergencyReparent s new =
        ({ masterAlias := some new,
           tablets := (commitAll (emergencyStep new) s.tablets).1 },
         .inr (commitAll (emergencyStep new) s.tablets).2) := by
      unfold emergencyReparent
      rw [hfnew]
      simp only [hnr]
      rfl
    rw [hcompute] at heq
    have hfst : ({ masterAlias := some new,
                   tablets := (commitAll (emergencyStep new) s.tablets).1 } : Shard)
        = s' := congrArg Prod.fst heq
    have hsnd := congrArg Prod.snd heq
    simp only at hsnd
    have hnofail : (commitAll (emergencyStep new) s.tablets).2 = [] :=
      Sum.inr.inj hsnd
    have hmem : ∃ t ∈ s.tablets, t.uid = new :=
      ⟨newT, findTablet_mem hfnew, findTablet_uid hfnew⟩
    have hpred : ∀ t ∈ s.tablets,
        (((emergencyStep new t).1).role = TabletRole.master ↔ t.uid = new) := by
      intro t ht
      unfold emergencyStep
      by_cases hn : t.uid = new
      · rw [if_pos hn]
        simp [hn]
      · rw [if_neg hn]
        unfold rewireTablet
        by_cases hre : t.reachable
        · rw [if_pos hre]
          simp only [hn, iff_false]
          intro hm
          exact hnomaster t ht hm
        · rw [if_neg hre]
          simp only [hn, iff_false]
          intro hm
          exact hnomaster t ht hm
    have hrewire : ∀ t ∈ s.tablets, t.uid ≠ new →
        (emergencyStep new t).2 = none →
        ((emergencyStep new t).1).replTarget = some new := by
      intro t ht hn hnone
      unfold emergencyStep at hnone ⊢
      rw [if_neg hn] at hnone ⊢
      unfold rewireTablet at hnone ⊢
      by_cases hre : t.reachable
      · rw [if_pos hre]
      · rw [if_neg hre] at hnone
        exact absurd hnone (by simp)
    obtain ⟨hcount, htargets⟩ := commit_invariant s.tablets
      (emergencyStep new) new (emergencyStep_uid new) hnodup hmem
      hpred hrewire hnofail
    refine ⟨?_, ?_, ?_⟩
    · rw [← hfst]
    · rw [← hfst]
      exact hcount
    · intro t ht hsp hne2
      rw [← hfst] at ht
      exact htargets t ht hne2

/-- The shard of `test_reparent_down_master` after `ScrapTablet -force`
removed the dead master 62344 from serving: three healthy replicas, the shard
record still naming the dead master. -/
def scrappedMasterShard : Shard :=
  ⟨some 62344,
   [⟨62044, .replica, some 62344, true⟩,
    ⟨41983, .replica, some 62344, true⟩,
    ⟨31981, .replica, some 62344, true⟩]⟩

/-- The shard after the emergency reparent of `test_reparent_down_master`. -/
def reparentedShard : Shard :=
  ⟨some 62044,
   [⟨62044, .master, none, true⟩,
    ⟨41983, .replica, some 62044, true⟩,
    ⟨31981, .replica, some 62044, true⟩]⟩

/-- Witness for C4: the emergency reparent of `test_reparent_down_master`,
with the old master powered off and scrapped out of the serving set. -/
theorem reparent_exactly_one_master_witness :
    ((scrappedMasterShard.tablets.map (fun t => t.uid)).Nodup ∧
      scrappedMasterShard.findTablet 62044 =
        some ⟨62044, .replica, some 62344, true⟩ ∧
      (⟨62044, .replica, some 62344, true⟩ : TabletRec).reachable = true ∧
      (∀ t ∈ scrappedMasterShard.tablets, t.role ≠ TabletRole.master) ∧
      emergencyReparent scrappedMasterShard 62044 = (reparentedShard, .inr [])) ∧
    (reparentedShard.masterAlias = some 62044 ∧
     reparentedShard.tablets.countP (fun t => t.role = TabletRole.master) = 1 ∧
     ∀ t ∈ reparentedShard.tablets, t.role ≠ TabletRole.spare → t.uid ≠ 62044 →
       t.replTarget = some 62044) :=
  ⟨⟨by decide, by decide, by decide, by decide, by decide⟩,
   reparent_exactly_one_master scrappedMasterShard reparentedShard 62044
     (by decide)
     (Or.inr ⟨⟨62044, .replica, some 62344, true⟩,
       by decide, by decide, by decide, by decide⟩)⟩

/-- The shard of `test_reparent_with_down_slave`: healthy master 62344,
healthy replicas 62044 and 31981, spare 41983 whose mysqld is shut down. -/
def downSlaveShard : Shard :=
  ⟨some 62344,
   [⟨62344, .master, none, true⟩,
    ⟨62044, .replica, some 62344, true⟩,
    ⟨31981, .replica, some 62344, true⟩,
    ⟨41983, .spare, some 62344, false⟩]⟩

/-- Counterexample to C5 as stated: at the `test_reparent_with_down_slave`
topology, the planned reparent to 62044 commits the mastership change and
enumerates the failed tablet 41983, but the operation reports failure — the
test runs `PlannedReparentShard` with `expect_fail=True` — not overall
success. -/
theorem planned_reparent_down_slave_reports_failure :
    (plannedReparent downSlaveShard 62044).1.masterAlias = some 62044 ∧
    (plannedReparent downSlaveShard 62044).2 = .inr [41983] ∧
    reparentReportsSuccess (plannedReparent downSlaveShard 62044).2 = false := by
  decide

/-- C5 (amended): when some replica rewire fails while demote and promote
succeed, the mastership change is still committed and the failed replicas are
enumerated in the result — the failures do not abort the operation — but the
operation reports overall failure (the command exits non-zero naming the
failed replicas), not success. -/
theorem planned_reparent_partial_rewire_commits
    (s : Shard) (old new : Nat) (oldT newT : TabletRec)
    (hmaster : s.masterAlias = some old) (hne : new ≠ old)
    (hfold : s.findTablet old = some oldT) (hor : oldT.reachable = true)
    (hfnew : s.findTablet new = some newT) (hnr : newT.reachable = true) :
    ∃ s' failed, plannedReparent s new = (s', .inr failed) ∧
      s'.masterAlias = some new ∧
      (∀ u, u ∈ failed ↔ ∃ t ∈ s.tablets, t.uid = u ∧ t.uid ≠ new ∧ t.uid ≠ old ∧
        t.reachable = false) ∧
      (failed ≠ [] → reparentReportsSuccess (Sum.inr failed) = false) := by
  have hcompute : plannedReparent s new =
      ({ masterAlias := some new,
         tablets := (commitAll (plannedStep old new) s.tablets).1 },
       .inr (commitAll (plannedStep old new) s.tablets).2) := by
    unfold plannedReparent
    rw [hmaster]
    simp only [hne, if_neg, hfold, hor, hfnew, hnr]
    rfl
  refine ⟨_, _, hcompute, rfl, ?_, ?_⟩
  · intro u
    rw [commitAll_snd, List.mem_filterMap]
    constructor
    · rintro ⟨t, ht, hstep⟩
      refine ⟨t, ht, ?_⟩
      unfold plannedStep at hstep
      by_cases hn : t.uid = new
      · rw [if_pos hn] at hstep
        exact absurd hstep (by simp)
      · rw [if_neg hn] at hstep
        by_cases ho : t.uid = old
        · rw [if_pos ho] at hstep
          exact absurd hstep (by simp)
        · rw [if_neg ho] at hstep
          unfold rewireTablet at hstep
          by_cases hre : t.reachable
          · rw [if_pos hre] at hstep
            exact absurd hstep (by simp)
          · rw [if_neg hre] at hstep
            have : t.uid = u := Option.some.inj hstep
            simp only [Bool.not_eq_true] at hre
            exact ⟨this, hn, ho, hre⟩
    · rintro ⟨t, ht, huid, hn, ho, hre⟩
      refine ⟨t, ht, ?_⟩
      unfold plannedStep
      rw [if_neg hn, if_neg ho]
      unfold rewireTablet
      rw [hre]
      simp [huid]
  · intro hne'
    cases hfl : (commitAll (plannedStep old new) s.tablets).2 with
    | nil => exact absurd hfl hne'
    | cons a l => rfl

/-- Witness for the amended C5 at the `test_reparent_with_down_slave`
topology. -/
theorem planned_reparent_partial_rewire_commits_witness :
    (downSlaveShard.masterAlias = some 62344 ∧
      (62044 : Nat) ≠ 62344 ∧
      downSlaveShard.findTablet 62344 = some ⟨62344, .master, none, true⟩ ∧
      (⟨62344, .master, none, true⟩ : TabletRec).reachable = true ∧
      downSlaveShard.findTablet 62044 = some ⟨62044, .replica, some 62344, true⟩ ∧
      (⟨62044, .replica, some 62344, true⟩ : TabletRec).reachable = true) ∧
    (∃ s' failed, plannedReparent downSlaveShard 62044 = (s', .inr failed) ∧
      s'.masterAlias = some 62044 ∧
      (∀ u, u ∈ failed ↔ ∃ t ∈ downSlaveShard.tablets, t.uid = u ∧ t.uid ≠ 62044 ∧
        t.uid ≠ 62344 ∧ t.reachable = false) ∧
      (failed ≠ [] → reparentReportsSuccess (Sum.inr failed) = false)) :=
  ⟨⟨by decide, by decide, by decide, by decide, by decide, by decide⟩,
   planned_reparent_partial_rewire_commits downSlaveShard 62344 62044
     ⟨62344, .master, none, true⟩ ⟨62044, .replica, some 62344, true⟩
     (by decide) (by decide) (by decide) (by decide) (by decide) (by decide)⟩

end Vitess
